import Mathlib

/-!
Verification development for the gyaml YAML query engine
(repository m4l1c1ou5/gyaml, files gyaml.go and fast_parser.go).

Modelling conventions:
* Go strings are modelled as `List Char` (`GoStr`).  Go indexes bytes; every
  document and path in this development is ASCII, where bytes and chars agree.
* Go `float64` numbers are modelled as `Rat` (exact rationals).  All numeric
  values exercised by the theorems are small integers, where the two agree;
  float-specific behaviour (rounding, Inf/NaN, hex floats) is out of scope.
* The external YAML bridge (gopkg.in/yaml.v3 `Unmarshal` / `Marshal`) is not
  part of the repository.  The engine below is parameterised over a parsing
  function (`Unmarshal`) and a serialisation function (`Marshal`); a concrete
  model bridge is supplied further down for concrete evaluations.
* Go `interface{}` values flowing through the engine are modelled as `YValue`,
  with the Go `nil` interface represented by `YValue.vnull` (exactly the value
  produced for YAML null, as in Go).
* Code that can panic (a Go slice expression with out-of-range bounds, see
  `extractValue`) is modelled in `Except GoPanic`; the rest of the engine is
  panic-free and stays pure.
-/

/-! ### Characters that are awkward as literals -/

def nlChar : Char := Char.ofNat 10
def tabChar : Char := Char.ofNat 9
def bslashChar : Char := Char.ofNat 92
def dqChar : Char := Char.ofNat 34
def sqChar : Char := Char.ofNat 39
def lbraceChar : Char := Char.ofNat 123
def rbraceChar : Char := Char.ofNat 125

/-! ### Go strings as char lists -/

abbrev GoStr := List Char

def gs (s : String) : GoStr := s.data

/-- Go `unicode.IsSpace`, restricted to the ASCII space characters. -/
def goIsSpace (c : Char) : Bool :=
  c = ' ' || c = tabChar || c = nlChar || c = Char.ofNat 11 || c = Char.ofNat 12 || c = Char.ofNat 13

/-- Go `strings.TrimSpace`. -/
def goTrimSpace (s : GoStr) : GoStr :=
  ((s.dropWhile goIsSpace).reverse.dropWhile goIsSpace).reverse

/-- Go `strings.TrimLeft` with a cutset. -/
def goTrimLeftCut (s : GoStr) (cutset : GoStr) : GoStr :=
  s.dropWhile (fun c => cutset.contains c)

/-- Go `strings.Trim` with a cutset (both ends). -/
def goTrimCut (s : GoStr) (cutset : GoStr) : GoStr :=
  (((s.dropWhile (fun c => cutset.contains c)).reverse.dropWhile
      (fun c => cutset.contains c)).reverse)

/-- Go `strings.HasPrefix s pre`. -/
def goHasPre : GoStr → GoStr → Bool
  | _, [] => true
  | [], _ :: _ => false
  | c :: s, p :: ps => c = p && goHasPre s ps

/-- Go `strings.HasSuffix s suf`. -/
def goHasSuf (s suf : GoStr) : Bool :=
  goHasPre s.reverse suf.reverse

/-- Go `strings.Index s sub` (first occurrence), `none` for Go's `-1`. -/
def goIndexOfSub : GoStr → GoStr → Option Nat
  | s, sub =>
    if goHasPre s sub then some 0
    else match s with
      | [] => none
      | _ :: rest => (goIndexOfSub rest sub).map (· + 1)

/-- Go `strings.Contains`. -/
def goContainsSub (s sub : GoStr) : Bool :=
  (goIndexOfSub s sub).isSome

/-- Go `strings.ContainsAny`. -/
def goContainsAny (s : GoStr) (chars : GoStr) : Bool :=
  s.any (fun c => chars.contains c)

/-- Go `strings.Split` with a one-character separator (keeps empty fields). -/
def goSplitChar : GoStr → Char → List GoStr
  | [], _ => [[]]
  | c :: rest, sep =>
    if c = sep then [] :: goSplitChar rest sep
    else match goSplitChar rest sep with
      | [] => [[c]]
      | h :: t => (c :: h) :: t

/-- Go `strings.Join` with separator `"\n"`. -/
def joinNL (parts : List GoStr) : GoStr :=
  List.intercalate [nlChar] parts

/-- Go `strings.ToLower`, ASCII. -/
def goToLower (s : GoStr) : GoStr :=
  s.map (fun c => if 'A' ≤ c && c ≤ 'Z' then Char.ofNat (c.toNat + 32) else c)

/-- Leading-whitespace width of a line: `len(line) - len(strings.TrimLeft(line, " \t"))`. -/
def indentOf (line : GoStr) : Nat :=
  line.length - (goTrimLeftCut line [' ', tabChar]).length

/-! ### Number formatting and parsing (strconv models) -/

def digitChar (d : Nat) : Char := Char.ofNat (48 + d)

def natToStrAux : Nat → Nat → GoStr
  | 0, _ => []
  | fuel + 1, n =>
    if n < 10 then [digitChar n]
    else natToStrAux fuel (n / 10) ++ [digitChar (n % 10)]

/-- Decimal digits of a natural number (Go `strconv.Itoa` for nonnegative input). -/
def natToStr (n : Nat) : GoStr := natToStrAux (n + 1) n

/-- Go `strconv.FormatInt i 10`. -/
def intToStr (i : Int) : GoStr :=
  if i < 0 then '-' :: natToStr i.natAbs else natToStr i.natAbs

def digitsFoldNat (l : GoStr) : Nat :=
  l.foldl (fun acc c => acc * 10 + (c.toNat - 48)) 0

/-- Nonempty all-digit string to a natural number, else `none`. -/
def digitsToNat : GoStr → Option Nat
  | l => if l ≠ [] ∧ l.all Char.isDigit then some (digitsFoldNat l) else none

/-- Go `strconv.Atoi` (64-bit): optional sign, decimal digits, range check. -/
def atoi (s : GoStr) : Option Int :=
  match s with
  | [] => none
  | '+' :: rest =>
    (digitsToNat rest).bind (fun n =>
      if n ≤ 9223372036854775807 then some (n : Int) else none)
  | '-' :: rest =>
    (digitsToNat rest).bind (fun n =>
      if n ≤ 9223372036854775808 then some (-(n : Int)) else none)
  | _ =>
    (digitsToNat s).bind (fun n =>
      if n ≤ 9223372036854775807 then some (n : Int) else none)

/-- Go `strconv.ParseFloat s 64`, modelled exactly over `Rat` for decimal
    forms `[+-]digits[.digits][eE[+-]digits]`.  Go additionally accepts
    `Inf`/`NaN` and hex floats and rounds to the nearest binary float; those
    float-specific behaviours are outside this model. -/
def parseFloatQ (s : GoStr) : Option Rat :=
  match s with
  | [] => none
  | _ =>
    let signRest : Int × GoStr :=
      match s with
      | '+' :: r => (1, r)
      | '-' :: r => (-1, r)
      | r => (1, r)
    let sign := signRest.1
    let rest := signRest.2
    let intPart := rest.takeWhile Char.isDigit
    let rest2 := rest.drop intPart.length
    let fracRest : GoStr × GoStr :=
      match rest2 with
      | '.' :: r => (r.takeWhile Char.isDigit, r.drop (r.takeWhile Char.isDigit).length)
      | r => ([], r)
    let fracPart := fracRest.1
    let rest3 := fracRest.2
    if intPart = [] ∧ fracPart = [] then none
    else
      let mant : Int := sign * (digitsFoldNat (intPart ++ fracPart) : Int)
      let base : Rat := mkRat mant (10 ^ fracPart.length)
      match rest3 with
      | [] => some base
      | e :: r =>
        if e = 'e' ∨ e = 'E' then
          let esignRest : Bool × GoStr :=
            match r with
            | '+' :: rr => (true, rr)
            | '-' :: rr => (false, rr)
            | rr => (true, rr)
          let digs := esignRest.2
          if digs ≠ [] ∧ digs.all Char.isDigit then
            let eNat := digitsFoldNat digs
            -- the exponent is folded into the numerator or denominator directly
            -- (`Rat` multiplication is avoided so that terms kernel-reduce)
            if esignRest.1 then some (mkRat (mant * ((10 ^ eNat : Nat) : Int)) (10 ^ fracPart.length))
            else some (mkRat mant (10 ^ fracPart.length * 10 ^ eNat))
          else none
        else none

/-- Go `strconv.FormatFloat x 'f' (-1) 64` for the exact rationals that arise
    here: integers print as decimal integers, terminating fractions print with
    their shortest exact expansion.  (Rationals with a non-terminating decimal
    expansion cannot be produced by `parseFloatQ`; for completeness they fall
    back to a `num/den` rendering.) -/
def formatRatF (q : Rat) : GoStr :=
  if q.den = 1 then intToStr q.num
  else match (List.range 65).find? (fun k => q.num * ((10 ^ k : Nat) : Int) % (q.den : Int) = 0) with
    | some k =>
      let n : Int := q.num * ((10 ^ k : Nat) : Int) / (q.den : Int)
      let sign : GoStr := if n < 0 then ['-'] else []
      let digits0 := natToStr n.natAbs
      let digits := if digits0.length ≤ k then
          List.replicate (k + 1 - digits0.length) '0' ++ digits0
        else digits0
      sign ++ digits.take (digits.length - k) ++ '.' :: digits.drop (digits.length - k)
    | none => intToStr q.num ++ '/' :: natToStr q.den

/-! ### The generic value tree produced by the YAML bridge

The Go engine walks `interface{}` trees with nodes
`nil / bool / int / int64 / float64 / string / []interface{} /
map[string]interface{}`.  `vnum` merges Go's three numeric node kinds (they are
treated alike everywhere in the engine, and both of Go's renderings print
integers identically).  Mappings are association lists: Go map iteration order
is unspecified, the list order is a deterministic refinement (no theorem below
depends on the order of more than one entry). -/

mutual
inductive YValue where
  | vnull
  | vbool (b : Bool)
  | vnum (q : Rat)
  | vstr (s : GoStr)
  | vseq (l : YList)
  | vmap (m : YMap)
  deriving DecidableEq, Repr
inductive YList where
  | nil
  | cons (h : YValue) (t : YList)
  deriving DecidableEq, Repr
inductive YMap where
  | nil
  | cons (k : GoStr) (v : YValue) (t : YMap)
  deriving DecidableEq, Repr
end

def YList.toList : YList → List YValue
  | .nil => []
  | .cons h t => h :: t.toList

def YList.ofList : List YValue → YList
  | [] => .nil
  | h :: t => .cons h (YList.ofList t)

def YMap.toList : YMap → List (GoStr × YValue)
  | .nil => []
  | .cons k v t => (k, v) :: t.toList

def YMap.ofList : List (GoStr × YValue) → YMap
  | [] => .nil
  | (k, v) :: t => .cons k v (YMap.ofList t)

/-- Go map read `m[k]` (with the second result of the comma-ok form). -/
def YMap.lookup : YMap → GoStr → Option YValue
  | .nil, _ => none
  | .cons k v t, key => if k = key then some v else t.lookup key

def yseq (l : List YValue) : YValue := .vseq (YList.ofList l)
def ymap (l : List (GoStr × YValue)) : YValue := .vmap (YMap.ofList l)

/-- The signature of the external `yamlv3.Unmarshal` into a generic tree
    (`none` models a parse error). -/
abbrev Unmarshal := GoStr → Option YValue

/-- The signature of the external `yamlv3.Marshal` of a generic tree. -/
abbrev Marshal := YValue → GoStr

/-! ### Result (gyaml.go lines 18-71)

Field names follow the source; `Type` is a Lean keyword, so that field is
called `typ`.  The Go zero value `Result{}` (type `Null`, empty strings,
zero numbers, nil slice) is the Lean default structure instance. -/

inductive RType where
  | Null
  | False
  | Number
  | String
  | True
  | YAML
  deriving DecidableEq, Repr

structure Result where
  typ : RType := .Null
  Raw : GoStr := []
  Str : GoStr := []
  Num : Rat := 0
  Index : Int := 0
  Indexes : List Int := []
  deriving DecidableEq, Repr

/-- `Result.Exists` (gyaml.go lines 339-341): `t.Type != Null || len(t.Raw) != 0`. -/
def Result.Exists (t : Result) : Bool :=
  if t.typ = RType.Null then !t.Raw.isEmpty else true

/-- `Result.String` (gyaml.go lines 74-102). -/
def Result.String (t : Result) : GoStr :=
  match t.typ with
  | .Number =>
    if t.Raw = [] then formatRatF t.Num
    else
      let rest := if goHasPre t.Raw (gs ("-")) then t.Raw.drop 1 else t.Raw
      if rest.all Char.isDigit then t.Raw else formatRatF t.Num
  | .String => t.Str
  | .YAML => t.Raw
  | .True => gs ("true")
  | .False => gs ("false")
  | .Null => []

structure GoPanic where
  msg : GoStr
  deriving DecidableEq, Repr

instance : DecidableEq (Except GoPanic Result) := fun a b =>
  match a, b with
  | .ok x, .ok y =>
    if h : x = y then .isTrue (by rw [h]) else .isFalse (by intro hc; cases hc; exact h rfl)
  | .error x, .error y =>
    if h : x = y then .isTrue (by rw [h]) else .isFalse (by intro hc; cases hc; exact h rfl)
  | .ok _, .error _ => .isFalse (by intro hc; cases hc)
  | .error _, .ok _ => .isFalse (by intro hc; cases hc)

instance : DecidableEq (Except GoPanic (Result × Bool)) := fun a b =>
  match a, b with
  | .ok x, .ok y =>
    if h : x = y then .isTrue (by rw [h]) else .isFalse (by intro hc; cases hc; exact h rfl)
  | .error x, .error y =>
    if h : x = y then .isTrue (by rw [h]) else .isFalse (by intro hc; cases hc; exact h rfl)
  | .ok _, .error _ => .isFalse (by intro hc; cases hc)
  | .error _, .ok _ => .isFalse (by intro hc; cases hc)

/-! ### Pattern matcher (gyaml.go lines 1069-1106) -/

/-- The backtracking loop inside `deepMatch`'s `*` case: Go tries
    `deepMatch(str[i:], pattern[1:])` for `i = 0 .. len(str)`. -/
def matchStar (f : GoStr → Bool) : GoStr → Bool
  | [] => f []
  | c :: rest => f (c :: rest) || matchStar f rest

/-- `deepMatch` (gyaml.go lines 1078-1106). -/
def deepMatch : GoStr → GoStr → Bool
  | str, [] => str.isEmpty
  | str, p :: ps =>
    if p = '*' then
      if ps = [] then true
      else matchStar (fun s2 => deepMatch s2 ps) str
    else if p = '?' then
      match str with
      | [] => false
      | _ :: s => deepMatch s ps
    else match str with
      | [] => false
      | c :: s => if c = p then deepMatch s ps else false

/-- `wildcard` (gyaml.go lines 1074-1076). -/
def wildcard (str pat : GoStr) : Bool := deepMatch str pat

/-- `matchPattern` (gyaml.go lines 1069-1071). -/
def matchPattern (str pat : GoStr) : Bool := wildcard str pat

/-! ### Path tokenizer (gyaml.go lines 678-811) -/

structure PathComponent where
  key : GoStr := []
  isWild : Bool := false
  isQuery : Bool := false
  query : GoStr := []
  isIndex : Bool := false
  index : Int := 0
  isCount : Bool := false
  pipe : GoStr := []
  hasPipe : Bool := false
  multi : Bool := false
  deriving DecidableEq, Repr

/-- `parseComponent` (gyaml.go lines 792-811). -/
def parseComponent (s : GoStr) : PathComponent :=
  if goContainsAny s ['*', '?'] then { key := s, isWild := true }
  else match atoi s with
    | some idx => { isIndex := true, index := idx }
    | none => { key := s }

/-- Replace the last element of a component list (Go mutates
    `parts[len(parts)-1]` in place). -/
def updateLast (f : PathComponent → PathComponent) : List PathComponent → List PathComponent
  | [] => []
  | [x] => [f x]
  | x :: xs => x :: updateLast f xs

/-- The character loop of `parsePath` (gyaml.go lines 692-790) as a state
    machine over the remaining characters.  State: `escaped`, `inQuery` with
    its parenthesis `depth`, the `current` component text, and the components
    accumulated so far. -/
def parsePathAux (chars : GoStr) (escaped inQuery : Bool) (depth : Nat)
    (current : GoStr) (parts : List PathComponent) : List PathComponent :=
  match chars, escaped, inQuery, depth, current, parts with
  | [], _, _, _, current, parts =>
    if current ≠ [] then parts ++ [parseComponent current] else parts
  -- `#(` with neither escape nor an enclosing query: query start (skips the `(`)
  | '#' :: '(' :: rest2, false, false, _, current, parts =>
    let parts := if current ≠ [] then parts ++ [{ key := current }] else parts
    parsePathAux rest2 false true 1 [] (parts ++ [{ isQuery := true }])
  -- `)#` closing the query at depth 1: record the body, mark multi, skip the `#`
  | ')' :: '#' :: rest2, false, true, 1, current, parts =>
    parsePathAux rest2 false false 0 []
      (updateLast (fun c => { c with query := current, multi := true }) parts)
  | ch :: rest, escaped, inQuery, depth, current, parts =>
    if escaped then parsePathAux rest false inQuery depth (current ++ [ch]) parts
    else if ch = bslashChar then parsePathAux rest true inQuery depth current parts
    else if ch = '#' ∧ inQuery = false then
      -- a `#(` here was taken by the equation above, so this is the count case
      let parts := if current ≠ [] then parts ++ [{ key := current }] else parts
      parsePathAux rest false inQuery depth [] (parts ++ [{ isCount := true }])
    else if inQuery then
      if ch = '(' then parsePathAux rest false true (depth + 1) (current ++ [ch]) parts
      else if ch = ')' then
        if depth = 1 then
          -- a following `#` was taken by the equation above: close without multi
          parsePathAux rest false false 0 []
            (updateLast (fun c => { c with query := current }) parts)
        else parsePathAux rest false true (depth - 1) (current ++ [ch]) parts
      else parsePathAux rest false true depth (current ++ [ch]) parts
    else if ch = '.' then
      let parts := if current ≠ [] then parts ++ [parseComponent current] else parts
      parsePathAux rest false inQuery depth [] parts
    else if ch = '|' then
      let parts := if current ≠ [] then parts ++ [parseComponent current] else parts
      parts ++ [{ pipe := rest, hasPipe := true }]
    else parsePathAux rest false inQuery depth (current ++ [ch]) parts
  termination_by structural chars

/-- `parsePath` (gyaml.go lines 692-790). -/
def parsePath (path : GoStr) : List PathComponent :=
  parsePathAux path false false 0 [] []

/-! ### fmt.Sprint on generic values (used by the query comparisons)

Go's `fmt.Sprint` renders `nil` as `<nil>`, slices as `[a b c]`, and maps as
`map[k1:v1 k2:v2]` with keys sorted.  Numeric rendering of non-integral or
huge floats (`%v` = 'g' format) is approximated by the 'f' format; no theorem
exercises that case. -/

def strLtB : GoStr → GoStr → Bool
  | [], [] => false
  | [], _ :: _ => true
  | _ :: _, [] => false
  | a :: as, b :: bs => if a < b then true else if b < a then false else strLtB as bs

def insertPairByKey (p : GoStr × GoStr) : List (GoStr × GoStr) → List (GoStr × GoStr)
  | [] => [p]
  | q :: rest => if strLtB p.1 q.1 then p :: q :: rest else q :: insertPairByKey p rest

def sortPairsByKey : List (GoStr × GoStr) → List (GoStr × GoStr)
  | [] => []
  | p :: rest => insertPairByKey p (sortPairsByKey rest)

def joinSpace (parts : List GoStr) : GoStr :=
  List.intercalate [' '] parts

mutual
def sprintValue : YValue → GoStr
  | .vnull => gs ("<nil>")
  | .vbool true => gs ("true")
  | .vbool false => gs ("false")
  | .vnum q => formatRatF q
  | .vstr s => s
  | .vseq l => '[' :: joinSpace (sprintYList l) ++ [']']
  | .vmap m =>
    gs ("map[") ++
      joinSpace ((sortPairsByKey (sprintYMap m)).map (fun kv => kv.1 ++ ':' :: kv.2)) ++ [']']
def sprintYList : YList → List GoStr
  | .nil => []
  | .cons h t => sprintValue h :: sprintYList t
def sprintYMap : YMap → List (GoStr × GoStr)
  | .nil => []
  | .cons k v t => (k, sprintValue v) :: sprintYMap t
end

/-! ### Query evaluator (gyaml.go lines 962-1067) -/

/-- `getValueByKey` (gyaml.go lines 996-1017).  Missing keys and descents
    through non-mappings yield Go `nil`, that is `vnull`.  (Go returns `nil`
    from inside its loop on hitting a non-mapping; continuing the fold with
    `vnull` is equivalent, since `vnull` is not a mapping.) -/
def getValueByKey (data : YValue) (key : GoStr) : YValue :=
  match data with
  | .vmap m =>
    if goContainsSub key (gs (".")) then
      (goSplitChar key '.').foldl
        (fun cur part =>
          match cur with
          | .vmap m2 => (m2.lookup part).getD .vnull
          | _ => .vnull)
        (YValue.vmap m)
    else (m.lookup key).getD .vnull
  | _ => .vnull

/-- `compareNumeric` (gyaml.go lines 1036-1067). -/
def compareNumeric (itemValue : YValue) (op : GoStr) (value : GoStr) : Bool :=
  let itemNum? : Option Rat :=
    match itemValue with
    | .vnum q => some q
    | .vstr s => some ((parseFloatQ s).getD 0)
    | _ => none
  match itemNum? with
  | none => false
  | some itemNum =>
    match parseFloatQ value with
    | none => false
    | some valueNum =>
      if op = gs ("<") then decide (itemNum < valueNum)
      else if op = gs ("<=") then decide (itemNum ≤ valueNum)
      else if op = gs (">") then decide (itemNum > valueNum)
      else if op = gs (">=") then decide (itemNum ≥ valueNum)
      else false

/-- `compareValues` (gyaml.go lines 1019-1034). -/
def compareValues (itemValue : YValue) (op : GoStr) (value : GoStr) : Bool :=
  if op = gs ("==") then sprintValue itemValue == value
  else if op = gs ("!=") then !(sprintValue itemValue == value)
  else if op = gs ("%") then matchPattern (sprintValue itemValue) value
  else if op = gs ("!%") then !(matchPattern (sprintValue itemValue) value)
  else if op = gs ("<") ∨ op = gs ("<=") ∨ op = gs (">") ∨ op = gs (">=") then
    compareNumeric itemValue op value
  else false

/-- The operator scan at the top of `evaluateQuery` (gyaml.go lines 968-976):
    the first operator of the ordered list that occurs anywhere in the query. -/
def findOp : List GoStr → GoStr → Option (GoStr × Nat)
  | [], _ => none
  | op :: rest, q =>
    match goIndexOfSub q op with
    | some idx => some (op, idx)
    | none => findOp rest q

def operatorList : List GoStr :=
  [gs ("=="), gs ("!="), gs ("<="), gs (">="), gs ("<"), gs (">"), gs ("!%"), gs ("%")]

/-- `evaluateQuery` (gyaml.go lines 962-994). -/
def evaluateQuery (item : YValue) (query : GoStr) : Bool :=
  match findOp operatorList query with
  | none => false
  | some (op, idx) =>
    let key := goTrimSpace (query.take idx)
    let value := goTrimSpace (query.drop (idx + op.length))
    let value := goTrimCut value [dqChar, sqChar]
    let itemValue := if key = [] then item else getValueByKey item key
    compareValues itemValue op value

/-! ### Terminal conversion and `Result.Value` (gyaml.go lines 607-646, 351-370) -/

/-- `valueToResult` (gyaml.go lines 607-646).  The Go `int`, `int64` and
    `float64` cases all produce `Number` with a decimal rendering of the value
    in `Raw`; they are merged into the single `vnum` case. -/
def valueToResult (marshal : Marshal) (val : YValue) : Result :=
  match val with
  | .vnull => {}
  | .vbool true => { typ := .True, Raw := gs ("true") }
  | .vbool false => { typ := .False, Raw := gs ("false") }
  | .vnum q => { typ := .Number, Num := q, Raw := formatRatF q }
  | .vstr s => { typ := .String, Str := s, Raw := s }
  | .vseq _ => { typ := .YAML, Raw := marshal val }
  | .vmap _ => { typ := .YAML, Raw := marshal val }

/-- `Result.Value` (gyaml.go lines 351-370); a failing re-parse of `Raw`
    yields Go `nil`, that is `vnull`. -/
def Result.Value (parse : Unmarshal) (t : Result) : YValue :=
  match t.typ with
  | .False => .vbool false
  | .True => .vbool true
  | .Number => .vnum t.Num
  | .String => .vstr t.Str
  | .YAML => (parse t.Raw).getD .vnull
  | .Null => .vnull

/-- `Valid` (gyaml.go lines 571-577). -/
def Valid (parse : Unmarshal) (yaml : GoStr) : Bool :=
  if goTrimSpace yaml = [] then false else (parse yaml).isSome

/-! ### Modifiers (gyaml.go lines 1108-1294) -/

/-- `modReverse` (gyaml.go lines 1162-1182). -/
def modReverse (parse : Unmarshal) (marshal : Marshal) (yamlStr _arg : GoStr) : GoStr :=
  match parse yamlStr with
  | none => yamlStr
  | some (.vseq l) => marshal (.vseq (YList.ofList l.toList.reverse))
  | some (.vmap m) => marshal (.vmap m)
  | some _ => yamlStr

/-- `modUgly` (gyaml.go lines 1184-1192). -/
def modUgly (parse : Unmarshal) (marshal : Marshal) (yamlStr _arg : GoStr) : GoStr :=
  match parse yamlStr with
  | none => yamlStr
  | some data => goTrimSpace (marshal data)

/-- `modPretty` (gyaml.go lines 1194-1202). -/
def modPretty (parse : Unmarshal) (marshal : Marshal) (yamlStr _arg : GoStr) : GoStr :=
  match parse yamlStr with
  | none => yamlStr
  | some data => marshal data

/-- `modThis` (gyaml.go lines 1204-1206). -/
def modThis (yamlStr _arg : GoStr) : GoStr := yamlStr

/-- `modValid` (gyaml.go lines 1208-1213). -/
def modValid (parse : Unmarshal) (yamlStr _arg : GoStr) : GoStr :=
  if Valid parse yamlStr then gs ("true") else gs ("false")

-- `flattenArray` (gyaml.go lines 1229-1239), as mutual recursion over the
-- value spine: sub-sequences are flattened recursively, other items are kept.
mutual
def flattenYL : YList → List YValue
  | .nil => []
  | .cons h t => flattenItem h ++ flattenYL t
def flattenItem : YValue → List YValue
  | .vseq sub => flattenYL sub
  | v => [v]
end

/-- `modFlatten` (gyaml.go lines 1215-1227). -/
def modFlatten (parse : Unmarshal) (marshal : Marshal) (yamlStr _arg : GoStr) : GoStr :=
  match parse yamlStr with
  | none => yamlStr
  | some (.vseq l) => marshal (.vseq (YList.ofList (flattenYL l)))
  | some _ => yamlStr

/-- Go map store `joined[k] = v`: replace an existing binding in place or
    append a new one (a deterministic refinement of Go's unordered map). -/
def YMap.upsert : YMap → GoStr → YValue → YMap
  | .nil, k, v => .cons k v .nil
  | .cons k2 v2 t, k, v => if k2 = k then .cons k2 v t else .cons k2 v2 (t.upsert k v)

/-- `modJoin` (gyaml.go lines 1241-1260). -/
def modJoin (parse : Unmarshal) (marshal : Marshal) (yamlStr _arg : GoStr) : GoStr :=
  match parse yamlStr with
  | none => yamlStr
  | some (.vseq l) =>
    let joined := l.toList.foldl
      (fun acc item =>
        match item with
        | .vmap m => m.toList.foldl (fun a kv => a.upsert kv.1 kv.2) acc
        | _ => acc)
      YMap.nil
    marshal (.vmap joined)
  | some _ => yamlStr

/-- `modKeys` (gyaml.go lines 1262-1277); Go iterates the map in unspecified
    order, modelled by entry order. -/
def modKeys (parse : Unmarshal) (marshal : Marshal) (yamlStr _arg : GoStr) : GoStr :=
  match parse yamlStr with
  | none => yamlStr
  | some (.vmap m) => marshal (.vseq (YList.ofList (m.toList.map (fun kv => .vstr kv.1))))
  | some _ => yamlStr

/-- `modValues` (gyaml.go lines 1279-1294). -/
def modValues (parse : Unmarshal) (marshal : Marshal) (yamlStr _arg : GoStr) : GoStr :=
  match parse yamlStr with
  | none => yamlStr
  | some (.vmap m) => marshal (.vseq (YList.ofList (m.toList.map (fun kv => kv.2))))
  | some _ => yamlStr

/-- The built-in modifier registry (gyaml.go lines 1110-1120).  `AddModifier`
    mutates this process-wide map at run time; the model carries the nine
    built-ins (no theorem exercises custom registration). -/
def modifiers (parse : Unmarshal) (marshal : Marshal) (name : GoStr) :
    Option (GoStr → GoStr → GoStr) :=
  if name = gs ("reverse") then some (modReverse parse marshal)
  else if name = gs ("ugly") then some (modUgly parse marshal)
  else if name = gs ("pretty") then some (modPretty parse marshal)
  else if name = gs ("this") then some modThis
  else if name = gs ("valid") then some (modValid parse)
  else if name = gs ("flatten") then some (modFlatten parse marshal)
  else if name = gs ("join") then some (modJoin parse marshal)
  else if name = gs ("keys") then some (modKeys parse marshal)
  else if name = gs ("values") then some (modValues parse marshal)
  else none

/-- `applyModifier` (gyaml.go lines 1127-1160), with an explicit fuel
    parameter to express the recursion on a strictly shorter pipe tail: every
    recursive call drops at least two characters of `path` while consuming one
    unit of fuel, so with fuel `> length path` the fuel case is unreachable. -/
def applyModifierF (parse : Unmarshal) (marshal : Marshal) :
    Nat → YValue → GoStr → GoStr → Result
  | 0, data, _, _ => valueToResult marshal data
  | fuel + 1, data, path, yamlStr =>
    if ¬ goHasPre path (gs ("@")) then valueToResult marshal data
    else
      let nameArg : GoStr × GoStr :=
        match goIndexOfSub path (gs (":")) with
        | some idx => ((path.take idx).drop 1, path.drop (idx + 1))
        | none => (path.drop 1, [])
      let modName := nameArg.1
      let modArg := nameArg.2
      match goIndexOfSub modName (gs ("|")) with
      | some pidx =>
        let remaining := modName.drop pidx
        let modName := modName.take pidx
        match modifiers parse marshal modName with
        | some fn =>
          let result := fn yamlStr modArg
          applyModifierF parse marshal fuel data (remaining.drop 1) result
        | none =>
          -- Go then falls through to a second lookup of the same (truncated)
          -- name, which fails again, and returns valueToResult(data)
          valueToResult marshal data
      | none =>
        match modifiers parse marshal modName with
        | some fn =>
          let result := fn yamlStr modArg
          let newData := (parse result).getD .vnull
          valueToResult marshal newData
        | none => valueToResult marshal data

/-- `applyModifier` with sufficient fuel. -/
def applyModifier (parse : Unmarshal) (marshal : Marshal)
    (data : YValue) (path yamlStr : GoStr) : Result :=
  applyModifierF parse marshal (path.length + 1) data path yamlStr

/-! ### Query filtering and traversal (gyaml.go lines 813-960) -/

/-- `handleQuery` (gyaml.go lines 935-960).  The `remainingParts` parameter is
    present in the source and unused there.  Go returns `nil` (here `vnull`)
    for non-array data or an empty single-match. -/
def handleQuery (data : YValue) (part : PathComponent)
    (_remainingParts : List PathComponent) : YValue :=
  match data with
  | .vseq arr =>
    let hits := arr.toList.filter (fun item => evaluateQuery item part.query)
    if part.multi then .vseq (YList.ofList hits)
    else match hits with
      | [] => .vnull
      | m :: _ => m
  | _ => .vnull

/-- `traversePath` (gyaml.go lines 813-933).  The Go `for i, part` loop with
    `parts[i+1:]` becomes recursion on the component list; `origYAML` is
    threaded exactly as in the source (where it is only passed along).
    Go's early `return Result{Type: Null}` is the default `Result`.
    A non-terminal count over a scalar falls through Go's type switch to the
    default case, also `Result{Type: Null}`. -/
def traversePath (parse : Unmarshal) (marshal : Marshal)
    (current0 : YValue) (parts0 : List PathComponent) (orig0 : GoStr) : Result :=
  match current0, parts0, orig0 with
  | current, [], _ => valueToResult marshal current
  | current, part :: rest, origYAML =>
    if part.hasPipe then
      let res := valueToResult marshal current
      applyModifier parse marshal current part.pipe res.Raw
    else if part.isCount then
      if rest ≠ [] then
        match current with
        | .vseq l =>
          let results := l.toList.filterMap (fun item =>
            let res := traversePath parse marshal item rest origYAML
            if res.Exists then some (res.Value parse) else none)
          valueToResult marshal (.vseq (YList.ofList results))
        | .vmap _ => {}
        | _ => {}
      else
        match current with
        | .vseq l =>
          { typ := .Number, Num := (l.toList.length : Rat), Raw := natToStr l.toList.length }
        | .vmap m =>
          { typ := .Number, Num := (m.toList.length : Rat), Raw := natToStr m.toList.length }
        | _ => { typ := .Number, Num := 0, Raw := gs ("0") }
    else if part.isQuery then
      let current2 := handleQuery current part rest
      if ¬ part.multi then
        if rest ≠ [] then traversePath parse marshal current2 rest origYAML
        else valueToResult marshal current2
      else
        if rest ≠ [] then
          match current2 with
          | .vseq ms =>
            let results := ms.toList.filterMap (fun m =>
              let res := traversePath parse marshal m rest origYAML
              if res.Exists then some (res.Value parse) else none)
            valueToResult marshal (.vseq (YList.ofList results))
          | _ => valueToResult marshal current2
        else valueToResult marshal current2
    else
      match current with
      | .vmap m =>
        if part.isWild then
          let hits := (m.toList.filter (fun kv => matchPattern kv.1 part.key)).map
            (fun kv => kv.2)
          match hits with
          | [single] => traversePath parse marshal single rest origYAML
          | _ => traversePath parse marshal (.vseq (YList.ofList hits)) rest origYAML
        else
          match m.lookup part.key with
          | none => {}
          | some v => traversePath parse marshal v rest origYAML
      | .vseq l =>
        if part.isIndex then
          if part.index < 0 ∨ part.index ≥ (l.toList.length : Int) then {}
          else match l.toList.get? part.index.toNat with
            | some v => traversePath parse marshal v rest origYAML
            | none => {}
        else if part.key ≠ [] then
          let results := l.toList.filterMap (fun item =>
            match item with
            | .vmap m2 => m2.lookup part.key
            | _ => none)
          if results = [] then {}
          else traversePath parse marshal (.vseq (YList.ofList results)) rest origYAML
        else traversePath parse marshal current rest origYAML
      | _ => {}
  termination_by structural parts0

/-- `getFromPath` (gyaml.go lines 659-676). -/
def getFromPath (parse : Unmarshal) (marshal : Marshal)
    (data : YValue) (path origYAML : GoStr) : Result :=
  if path = [] ∨ path = gs ("@this") then valueToResult marshal data
  else if goHasPre path (gs ("@")) then applyModifier parse marshal data path origYAML
  else
    let parts := parsePath path
    if parts = [] then valueToResult marshal data
    else traversePath parse marshal data parts origYAML

/-- `getMany` (gyaml.go lines 529-548): lines mode for a `..`-prefixed path.
    Lines that are empty after trimming or fail to parse are skipped. -/
def getMany (parse : Unmarshal) (marshal : Marshal) (yaml path : GoStr) : Result :=
  let items := (goSplitChar yaml nlChar).filterMap (fun line =>
    let line := goTrimSpace line
    if line = [] then none else parse line)
  getFromPath parse marshal (.vseq (YList.ofList items)) (path.drop 2) yaml

/-! ### Fast scalar path (fast_parser.go)

`extractValue` contains the one genuinely panicking expression of the engine
(`value[1 : len(value)-1]` with `len(value) = 1`), so the fast path lives in
`Except GoPanic`. -/

/-- `extractValue` (fast_parser.go lines 386-442). -/
def extractValue (value0 : GoStr) : Except GoPanic (Result × Bool) :=
  let value := goTrimSpace value0
  if value = [] then .ok ({}, false)
  else if (goHasPre value [dqChar] && goHasSuf value [dqChar]) ||
      (goHasPre value [sqChar] && goHasSuf value [sqChar]) then
    -- Go: unquoted := value[1 : len(value)-1]; for len(value) = 1 the slice
    -- bounds are [1:0], which panics at run time
    if value.length < 2 then .error { msg := gs ("slice bounds out of range") }
    else
      .ok ({ typ := .String, Str := (value.drop 1).take (value.length - 2), Raw := value }, true)
  else
    let lower := goToLower value
    if lower = gs ("true") || lower = gs ("yes") || lower = gs ("on") then
      .ok ({ typ := .True, Raw := value }, true)
    else if lower = gs ("false") || lower = gs ("no") || lower = gs ("off") then
      .ok ({ typ := .False, Raw := value }, true)
    else if lower = gs ("null") || lower = gs ("~") || value = [] then
      .ok ({ typ := .Null, Raw := value }, true)
    else match parseFloatQ value with
      | some num => .ok ({ typ := .Number, Num := num, Raw := value }, true)
      | none => .ok ({ typ := .String, Str := value, Raw := value }, true)

/-- The per-line state of `parseArrayElements` (fast_parser.go lines 309-378). -/
structure PAEState where
  elements : List GoStr := []
  current : GoStr := []
  inElement : Bool := false
  baseIndent : Int := -1
  elementIndent : Int := -1
  deriving DecidableEq, Repr

/-- One iteration of the line loop of `parseArrayElements`. -/
def paeStep (st : PAEState) (line : GoStr) : PAEState :=
  let trimmed := goTrimSpace line
  if trimmed = [] || goHasPre trimmed (gs ("#")) then st
  else
    let indent : Int := (indentOf line : Int)
    let st := { st with baseIndent := if st.baseIndent = -1 then indent else st.baseIndent }
    if goHasPre trimmed (gs ("- ")) && indent = st.baseIndent then
      let elements :=
        if st.inElement && st.current ≠ [] then st.elements ++ [st.current] else st.elements
      { st with elements := elements, current := goTrimSpace (trimmed.drop 2),
                inElement := true, elementIndent := indent }
    else if st.inElement && indent > st.elementIndent then
      { st with current :=
          if st.current ≠ [] then st.current ++ nlChar :: line else st.current ++ line }
    else if st.inElement && indent ≤ st.elementIndent then
      -- the source re-tests the first condition here; the branch is
      -- unreachable (its guard contradicts the first branch) and is kept
      -- verbatim, appending `current` without the non-empty check
      if goHasPre trimmed (gs ("- ")) && indent = st.baseIndent then
        { st with elements := st.elements ++ [st.current],
                  current := goTrimSpace (trimmed.drop 2),
                  inElement := true, elementIndent := indent }
      else st
    else st

/-- `parseArrayElements` (fast_parser.go lines 309-378). -/
def parseArrayElements (yaml : GoStr) : List GoStr :=
  let st := (goSplitChar yaml nlChar).foldl paeStep {}
  if st.current ≠ [] then st.elements ++ [st.current] else st.elements

/-- `countArrayElements` (fast_parser.go lines 381-383). -/
def countArrayElements (yaml : GoStr) : Nat :=
  (parseArrayElements yaml).length

/-- The base-indentation scan at the top of `fastParseKey`
    (fast_parser.go lines 153-163): the indent of the first line that is
    neither blank nor a `#` comment, `-1` when there is none. -/
def findBaseIndent : List GoStr → Int
  | [] => -1
  | line :: rest =>
    let trimmed := goTrimSpace line
    if trimmed = [] || goHasPre trimmed (gs ("#")) then findBaseIndent rest
    else (indentOf line : Int)

/-- The inner collection loop for a final-key block value
    (fast_parser.go lines 210-231): skip blank lines, stop at the first line
    with indent `≤ indent`, collect raw lines with indent `≥ nextIndent`. -/
def collectBlockLines (indent nextIndent : Int) : List GoStr → List GoStr
  | [] => []
  | line :: rest =>
    let trimmed := goTrimSpace line
    if trimmed = [] then collectBlockLines indent nextIndent rest
    else
      let li : Int := (indentOf line : Int)
      if li ≤ indent then []
      else if li ≥ nextIndent then line :: collectBlockLines indent nextIndent rest
      else collectBlockLines indent nextIndent rest

/-- The inner collection loop for a non-final nested block
    (fast_parser.go lines 253-276): like `collectBlockLines`, but lines are
    re-indented relative to `nextIndent`. -/
def collectNestedLines (indent nextIndent : Int) : List GoStr → List GoStr
  | [] => []
  | line :: rest =>
    let trimmed := goTrimSpace line
    if trimmed = [] then collectNestedLines indent nextIndent rest
    else
      let li : Int := (indentOf line : Int)
      if li ≤ indent then []
      else if li ≥ nextIndent then
        (List.replicate (li - nextIndent).toNat ' ' ++ goTrimLeftCut line [' ', tabChar]) ::
          collectNestedLines indent nextIndent rest
      else collectNestedLines indent nextIndent rest

/-- The line loop of `fastParseKey` (fast_parser.go lines 168-286), processing
    the first line at the target indent that starts with `key:`.  `next`
    continues with the remaining path components (Go passes `parts` and
    `depth+1` to `fastParsePath`); `isFinal` is Go's `depth == len(parts)-1`. -/
def fpkLoop (next : GoStr → Except GoPanic (Result × Bool)) (isFinal : Bool)
    (targetIndent : Int) (keyWithColon : GoStr) :
    List GoStr → Except GoPanic (Result × Bool)
  | [] => .ok ({}, false)
  | line :: restLines =>
    let trimmed := goTrimSpace line
    if trimmed = [] || goHasPre trimmed (gs ("#")) then
      fpkLoop next isFinal targetIndent keyWithColon restLines
    else
      let indent : Int := (indentOf line : Int)
      if indent ≠ targetIndent then fpkLoop next isFinal targetIndent keyWithColon restLines
      else if ¬ goHasPre trimmed keyWithColon then
        fpkLoop next isFinal targetIndent keyWithColon restLines
      else
        let valuePart := goTrimSpace (trimmed.drop keyWithColon.length)
        if isFinal then
          if valuePart ≠ [] then
            let trimmed2 := goTrimSpace valuePart
            if goHasPre trimmed2 [lbraceChar] || goHasPre trimmed2 ['['] ||
                valuePart.contains ':' then
              .ok ({}, false)
            else extractValue valuePart
          else
            let nextIndent := indent + 2
            match collectBlockLines indent nextIndent restLines with
            | [] => .ok ({}, false)
            | fb :: moreLines =>
              let firstBlockLine := goTrimSpace fb
              if goHasPre firstBlockLine (gs ("- ")) ||
                  goContainsSub firstBlockLine (gs (": ")) then
                .ok ({}, false)
              else extractValue (joinNL (fb :: moreLines))
        else
          if valuePart ≠ [] then next valuePart
          else
            let nextIndent := indent + 2
            match collectNestedLines indent nextIndent restLines with
            | [] => .ok ({}, false)
            | nl1 :: moreNested => next (joinNL (nl1 :: moreNested))

/-- `fastParseKey` (fast_parser.go lines 148-287). -/
def fastParseKey (next : GoStr → Except GoPanic (Result × Bool)) (isFinal : Bool)
    (yaml key : GoStr) : Except GoPanic (Result × Bool) :=
  let lines := goSplitChar yaml nlChar
  let baseIndent := findBaseIndent lines
  let targetIndent := baseIndent
  let keyWithColon := key ++ [':']
  fpkLoop next isFinal targetIndent keyWithColon lines

/-- `fastParseArrayIndex` (fast_parser.go lines 290-306). -/
def fastParseArrayIndex (next : GoStr → Except GoPanic (Result × Bool)) (isFinal : Bool)
    (yaml : GoStr) (index : Int) : Except GoPanic (Result × Bool) :=
  let elements := parseArrayElements yaml
  if index < 0 ∨ index ≥ (elements.length : Int) then .ok ({}, false)
  else match elements.get? index.toNat with
    | none => .ok ({}, false)
    | some element => if isFinal then extractValue element else next element

/-- `fastParsePath` (fast_parser.go lines 113-145).  Go carries the full part
    list and a `depth` cursor; here the remaining parts are carried directly,
    so Go's `depth == len(parts)-1` is `rest = []`. -/
def fastParsePath (yaml0 : GoStr) (parts0 : List GoStr) : Except GoPanic (Result × Bool) :=
  match yaml0, parts0 with
  | yaml, [] => extractValue yaml
  | yaml, currentKey :: rest =>
    match atoi currentKey with
    | some idx => fastParseArrayIndex (fun y => fastParsePath y rest) rest.isEmpty yaml idx
    | none =>
      if currentKey = gs ("#") then
        if rest ≠ [] then .ok ({}, false)
        else
          let count := countArrayElements yaml
          .ok ({ typ := .Number, Num := (count : Rat), Raw := natToStr count }, true)
      else fastParseKey (fun y => fastParsePath y rest) rest.isEmpty yaml currentKey
  termination_by structural parts0

/-- `hasComplexFeatures` (fast_parser.go lines 55-72). -/
def hasComplexFeatures : GoStr → Bool
  | [] => false
  | ch :: rest =>
    if ch = '*' || ch = '?' || ch = '@' || ch = '|' then true
    else if ch = '#' then
      match rest with
      | '(' :: _ => true
      | _ => hasComplexFeatures rest
    else hasComplexFeatures rest

/-- The character loop of `splitPath` (fast_parser.go lines 80-109). -/
def splitPathAux : GoStr → Bool → GoStr → List GoStr → List GoStr
  | [], _, current, parts => if current ≠ [] then parts ++ [current] else parts
  | ch :: rest, escaped, current, parts =>
    if escaped then splitPathAux rest false (current ++ [ch]) parts
    else if ch = bslashChar then splitPathAux rest true current parts
    else if ch = '.' then
      if current ≠ [] then splitPathAux rest false [] (parts ++ [current])
      else splitPathAux rest false [] parts
    else splitPathAux rest false (current ++ [ch]) parts

/-- `splitPath` (fast_parser.go lines 75-110). -/
def splitPath (path : GoStr) : List GoStr :=
  if path = [] then [] else splitPathAux path false [] []

/-- `fastGet` (fast_parser.go lines 14-52).  The read of
    `parts[len(parts)-1]` into an unused variable (lines 33-37) has no
    effect and is omitted. -/
def fastGet (yaml path : GoStr) : Except GoPanic (Result × Bool) :=
  if path = [] then .ok ({ typ := .YAML, Raw := yaml }, true)
  else
    let parts := splitPath path
    if parts = [] then .ok ({}, false)
    else if hasComplexFeatures path then .ok ({}, false)
    else match fastParsePath yaml parts with
      | .error e => .error e
      | .ok (result, ok) =>
        if ¬ ok then .ok ({}, false)
        else if result.typ = .YAML ∨ result.typ = .Null then .ok ({}, false)
        else .ok (result, true)

/-! ### `Get` (gyaml.go lines 440-495) -/

/-- `Get` (gyaml.go lines 458-495), in `Except GoPanic` because the fast path
    can panic.  A leading `..` enters lines mode; an empty path returns the
    whole document; a single leading `.` is stripped; then the fast path is
    tried, and on its declining, the document is parsed and traversed (a parse
    failure gives the zero `Result`). -/
def GetE (parse : Unmarshal) (marshal : Marshal) (yaml path : GoStr) :
    Except GoPanic Result :=
  match path with
  | '.' :: '.' :: _ => .ok (getMany parse marshal yaml path)
  | [] => .ok { typ := .YAML, Raw := yaml, Index := 0 }
  | _ =>
    let path := if goHasPre path (gs (".")) then path.drop 1 else path
    match fastGet yaml path with
    | .error e => .error e
    | .ok (result, true) => .ok result
    | .ok (_, false) =>
      match parse yaml with
      | none => .ok {}
      | some data => .ok (getFromPath parse marshal data path yaml)

/-! ### Result collection views (gyaml.go lines 192-332) -/

/-- `isYAMLObject` (gyaml.go lines 648-651). -/
def isYAMLObject (s : GoStr) : Bool := goContainsSub s (gs (": "))

/-- `isYAMLArray` (gyaml.go lines 653-656). -/
def isYAMLArray (s : GoStr) : Bool := goHasPre (goTrimSpace s) (gs ("- "))

/-- `Result.IsObject` (gyaml.go lines 209-211). -/
def Result.IsObject (t : Result) : Bool :=
  t.typ = RType.YAML && !t.Raw.isEmpty && (t.Raw.head? = some lbraceChar || isYAMLObject t.Raw)

/-- `Result.IsArray` (gyaml.go lines 214-216). -/
def Result.IsArray (t : Result) : Bool :=
  t.typ = RType.YAML && !t.Raw.isEmpty && (t.Raw.head? = some '[' || isYAMLArray t.Raw)

structure arrayOrMapResult where
  a : List Result := []
  ai : List YValue := []
  o : List (GoStr × Result) := []
  oi : List (GoStr × YValue) := []
  vc : Char := Char.ofNat 0
  deriving DecidableEq, Repr

/-- `Result.arrayOrMap` (gyaml.go lines 301-332); the `vc` argument is present
    in the source and unused by its body. -/
def Result.arrayOrMap (parse : Unmarshal) (marshal : Marshal) (t : Result)
    (_vc : Char) (valueize : Bool) : arrayOrMapResult :=
  match parse t.Raw with
  | none => {}
  | some (.vmap m) =>
    if valueize then { vc := lbraceChar, oi := m.toList }
    else { vc := lbraceChar, o := m.toList.map (fun kv => (kv.1, valueToResult marshal kv.2)) }
  | some (.vseq l) =>
    if valueize then { vc := '[', ai := l.toList }
    else { vc := '[', a := l.toList.map (valueToResult marshal) }
  | some _ => {}

/-- `Result.Array` (gyaml.go lines 197-206). -/
def Result.Array (parse : Unmarshal) (marshal : Marshal) (t : Result) : List Result :=
  if t.typ = RType.Null then []
  else if ¬ t.IsArray then [t]
  else (t.arrayOrMap parse marshal '[' false).a

/-- `Result.Map` (gyaml.go lines 271-277). -/
def Result.Map (parse : Unmarshal) (marshal : Marshal) (t : Result) :
    List (GoStr × Result) :=
  if t.typ ≠ RType.YAML then []
  else (t.arrayOrMap parse marshal lbraceChar false).o

/-! ### A concrete model of the external YAML bridge

The tree-building parser and serializer (gopkg.in/yaml.v3) are external
collaborators of the repository (spec §1: out of scope, assumed available).
For concrete evaluations they are modelled here. -/

-- Modelled from the spec: the external serializer `yamlv3.Marshal` ("the YAML
-- bridge ... serializes a tree back to text").  The model emits flow-style
-- YAML (the JSON subset of YAML): scalars bare, strings quoted, sequences
-- `[..]`, mappings brace-delimited — so that a serialized sequence starts
-- with `[` and a serialized mapping satisfies the `": "` object heuristic.
mutual
def marshalModel : YValue → GoStr
  | .vnull => gs ("null")
  | .vbool true => gs ("true")
  | .vbool false => gs ("false")
  | .vnum q => formatRatF q
  | .vstr s => dqChar :: s ++ [dqChar]
  | .vseq l => '[' :: marshalYL l ++ [']']
  | .vmap m => lbraceChar :: marshalYM m ++ [rbraceChar]
def marshalYL : YList → GoStr
  | .nil => []
  | .cons h .nil => marshalModel h
  | .cons h t => marshalModel h ++ ',' :: marshalYL t
def marshalYM : YMap → GoStr
  | .nil => []
  | .cons k v .nil => dqChar :: k ++ dqChar :: ':' :: ' ' :: marshalModel v
  | .cons k v t =>
    (dqChar :: k ++ dqChar :: ':' :: ' ' :: marshalModel v) ++ ',' :: marshalYM t
end

/-- The README / test-suite document (README.md "Path Syntax", also
    `testYAML` of the test file). -/
def readmeText : GoStr := gs
  ("name:\n  first: Tom\n  last: Anderson\nage: 37\nchildren:\n  - Sara\n  - Alex\n  - Jack\nfav.movie: Deer Hunter\nfriends:\n  - first: Dale\n    last: Murphy\n    age: 44\n    nets:\n      - ig\n      - fb\n      - tw\n  - first: Roger\n    last: Craig\n    age: 68\n    nets:\n      - fb\n      - tw\n  - first: Jane\n    last: Murphy\n    age: 47\n    nets:\n      - ig\n      - tw\n")

def friendDale : YValue := ymap
  [(gs ("first"), .vstr (gs ("Dale"))), (gs ("last"), .vstr (gs ("Murphy"))),
   (gs ("age"), .vnum 44),
   (gs ("nets"), yseq [.vstr (gs ("ig")), .vstr (gs ("fb")), .vstr (gs ("tw"))])]

def friendRoger : YValue := ymap
  [(gs ("first"), .vstr (gs ("Roger"))), (gs ("last"), .vstr (gs ("Craig"))),
   (gs ("age"), .vnum 68),
   (gs ("nets"), yseq [.vstr (gs ("fb")), .vstr (gs ("tw"))])]

def friendJane : YValue := ymap
  [(gs ("first"), .vstr (gs ("Jane"))), (gs ("last"), .vstr (gs ("Murphy"))),
   (gs ("age"), .vnum 47),
   (gs ("nets"), yseq [.vstr (gs ("ig")), .vstr (gs ("tw"))])]

def childrenVal : YValue :=
  yseq [.vstr (gs ("Sara")), .vstr (gs ("Alex")), .vstr (gs ("Jack"))]

/-- The generic tree of `readmeText` under YAML semantics. -/
def readmeDoc : YValue := ymap
  [(gs ("name"), ymap [(gs ("first"), .vstr (gs ("Tom"))), (gs ("last"), .vstr (gs ("Anderson")))]),
   (gs ("age"), .vnum 37),
   (gs ("children"), childrenVal),
   (gs ("fav.movie"), .vstr (gs ("Deer Hunter"))),
   (gs ("friends"), yseq [friendDale, friendRoger, friendJane])]

/-- A mapping document whose value at `a` is a two-key mapping. -/
def c6doc : GoStr := gs ("a:\n  b: 1\n  c: 2")

/-- A mapping document whose value at `fr` is a two-element string sequence. -/
def c7doc : GoStr := gs ("fr:\n  - a\n  - b")

def lookupStr : List (GoStr × YValue) → GoStr → Option YValue
  | [], _ => none
  | (k, v) :: rest, s => if k = s then some v else lookupStr rest s

/-- The documents this development parses, with their generic trees.  Each
    entry mirrors real YAML parsing of that text (in particular `a:1` is a
    plain scalar: YAML requires a space after the colon of a mapping entry);
    entries with `marshalModel` keys make the model bridge round-trip on the
    values the theorems serialize. -/
def bridgeTable : List (GoStr × YValue) :=
  [(readmeText, readmeDoc),
   (gs ("a:1"), .vstr (gs ("a:1"))),
   (gs ("a: 1"), ymap [(gs ("a"), .vnum 1)]),
   (c6doc, ymap [(gs ("a"), ymap [(gs ("b"), .vnum 1), (gs ("c"), .vnum 2)])]),
   (c7doc, ymap [(gs ("fr"), yseq [.vstr (gs ("a")), .vstr (gs ("b"))])]),
   (marshalModel childrenVal, childrenVal),
   (marshalModel (yseq []), yseq []),
   (marshalModel (yseq [.vstr (gs ("b"))]), yseq [.vstr (gs ("b"))])]

-- Modelled from the spec: the external parser `yamlv3.Unmarshal` ("parses
-- text to a generic tree of {null, bool, number, string, sequence,
-- mapping}"), as a finite table over the documents used here; texts outside
-- the table are treated as rejected.
def parseModel : Unmarshal := fun s => lookupStr bridgeTable s

/-! ### Specification-level definitions and proof-support functions -/

/-- The glob semantics as worded by the spec (§4.1): `*` matches any run of
    bytes including the empty run, `?` matches exactly one byte, and every
    other pattern byte matches only an identical byte.  First index: pattern;
    second index: the string. -/
inductive GlobSpec : List Char → List Char → Prop where
  | nil : GlobSpec [] []
  | star {ps : List Char} {s1 s2 : List Char} :
      GlobSpec ps s2 → GlobSpec ('*' :: ps) (s1 ++ s2)
  | one {ps : List Char} {c : Char} {s : List Char} :
      GlobSpec ps s → GlobSpec ('?' :: ps) (c :: s)
  | lit {ps : List Char} {c : Char} {s : List Char} :
      c ≠ '*' → c ≠ '?' → GlobSpec ps s → GlobSpec (c :: ps) (c :: s)

/-- One plain (key / index / wildcard) step of `traversePath`'s type switch,
    as a partial function: `none` is the early `Result{Type: Null}` return,
    `some d` the value the loop continues with.  Mirrors the final `switch` of
    `traversePath` (gyaml.go lines 882-929). -/
def stepPlain (part : PathComponent) (current : YValue) : Option YValue :=
  match current with
  | .vmap m =>
    if part.isWild then
      let hits := (m.toList.filter (fun kv => matchPattern kv.1 part.key)).map (fun kv => kv.2)
      match hits with
      | [single] => some single
      | _ => some (.vseq (YList.ofList hits))
    else m.lookup part.key
  | .vseq l =>
    if part.isIndex then
      if part.index < 0 ∨ part.index ≥ (l.toList.length : Int) then none
      else l.toList.get? part.index.toNat
    else if part.key ≠ [] then
      let results := l.toList.filterMap (fun item =>
        match item with
        | .vmap m2 => m2.lookup part.key
        | _ => none)
      if results = [] then none else some (.vseq (YList.ofList results))
    else some current
  | _ => none

/-- Iterated `stepPlain` over a prefix of plain components. -/
def descendPlain : YValue → List PathComponent → Option YValue
  | d, [] => some d
  | d, p :: ps =>
    match stepPlain p d with
    | none => none
    | some d2 => descendPlain d2 ps

/-- The element list that a trailing query `#(q)` filters, after the plain
    descent `sparts` into document `D`: empty when the document fails to
    parse, the descent dies, or the descended value is not a sequence. -/
def c7Matches (parse : Unmarshal) (D : GoStr) (sparts : List PathComponent)
    (q : GoStr) : List YValue :=
  match parse D with
  | none => []
  | some data =>
    match descendPlain data sparts with
    | some (.vseq l) => l.toList.filter (fun item => evaluateQuery item q)
    | _ => []

/-! ### Shared lemmas -/

theorem YList.toList_ofList (l : List YValue) : (YList.ofList l).toList = l := by
  induction l with
  | nil => rfl
  | cons h t ih => simp [YList.ofList, YList.toList, ih]

theorem goHasPre_single (c d : Char) (cs : GoStr) :
    goHasPre (c :: cs) [d] = decide (c = d) := by
  simp [goHasPre]

/-- A nonempty path with a complex feature makes `fastGet` decline. -/
theorem fastGet_declines (yaml p : GoStr) (hne : p ≠ [])
    (hc : hasComplexFeatures p = true) : fastGet yaml p = .ok ({}, false) := by
  unfold fastGet
  rw [if_neg hne]
  by_cases hsp : splitPath p = []
  · simp [hsp]
  · simp [hsp, hc]

/-- For a nonempty path with no leading dot, `Get` is the fast path followed
    by the slow fallback. -/
theorem GetE_nodot (parse : Unmarshal) (marshal : Marshal) (yaml p : GoStr)
    (hne : p ≠ []) (hnd : goHasPre p (gs (".")) = false) :
    GetE parse marshal yaml p =
      (match fastGet yaml p with
       | .error e => .error e
       | .ok (result, true) => .ok result
       | .ok (_, false) =>
         match parse yaml with
         | none => .ok {}
         | some data => .ok (getFromPath parse marshal data p yaml)) := by
  match p, hne with
  | c :: cs, _ =>
    have hc : ¬ (c = '.') := by
      have : goHasPre (c :: cs) ['.'] = decide (c = '.') := goHasPre_single c '.' cs
      have hnd2 : goHasPre (c :: cs) ['.'] = false := hnd
      rw [this] at hnd2
      exact of_decide_eq_false hnd2
    unfold GetE
    split
    · rename_i heq
      injection heq with h1 _
      exact absurd h1 hc
    · rename_i heq
      exact absurd heq (by intro h; cases h)
    · have hnd3 : goHasPre (c :: cs) (gs (".")) = false := hnd
      simp only [hnd3, Bool.false_eq_true, if_false]

/-- Slow-path reduction of `Get`: complex nonempty dot-free path. -/
theorem GetE_eq_slow (parse : Unmarshal) (marshal : Marshal) (yaml p : GoStr)
    (hne : p ≠ []) (hnd : goHasPre p (gs (".")) = false)
    (hc : hasComplexFeatures p = true) :
    GetE parse marshal yaml p =
      (match parse yaml with
       | none => .ok {}
       | some data => .ok (getFromPath parse marshal data p yaml)) := by
  rw [GetE_nodot parse marshal yaml p hne hnd, fastGet_declines yaml p hne hc]

/-! ### The claims -/

/-- C9: for every document D, `Get(D, "")` returns a Result of kind
    `YAML` (the spec's Raw kind) whose raw equals D byte for byte, with
    index 0. -/
theorem c9_empty_path_identity (parse : Unmarshal) (marshal : Marshal) (yaml : GoStr) :
    GetE parse marshal yaml [] = .ok { typ := RType.YAML, Raw := yaml, Index := 0 } := rfl

/-- C1 (code bug): `Get` is documented never to panic, but on the malformed
    document `a: "` with path `a` the fast path reaches
    `value[1:len(value)-1]` with `value` the one-character string `"`,
    a panicking slice expression.  The embedded engine returns the
    corresponding `GoPanic`. -/
theorem c1_get_panics_on_unclosed_quote :
    GetE parseModel marshalModel (gs ("a: ") ++ [dqChar]) (gs ("a")) =
      .error { msg := gs ("slice bounds out of range") } := by decide

/-- C2 (counterexample): the document `a: 1\nb: [` is rejected by the parser
    (yamlv3 rejects the unclosed flow sequence; the model bridge likewise),
    yet `Get(D, "a")` answers through the fast path — which runs before the
    parser is consulted — with an existent `Number 1`, not the
    `Null`/empty-raw result the claim demands. -/
theorem c2_counterexample :
    parseModel (gs ("a: 1") ++ nlChar :: gs ("b: [")) = none ∧
      GetE parseModel marshalModel (gs ("a: 1") ++ nlChar :: gs ("b: [")) (gs ("a")) =
        .ok { typ := RType.Number, Num := 1, Raw := gs ("1") } ∧
      ({ typ := RType.Number, Num := 1, Raw := gs ("1") } : Result).Exists = true := by
  exact ⟨by decide, by decide, by decide⟩

/-- C2 (amended): for a nonempty path without a leading dot, when the fast
    scalar extractor declines and the underlying parser rejects the document,
    `Get` returns the zero `Null` result with empty raw, whose `Exists()` is
    false. -/
theorem c2_amended_reject_gives_null (parse : Unmarshal) (marshal : Marshal)
    (yaml path : GoStr) (hne : path ≠ [])
    (hnd : goHasPre path (gs (".")) = false)
    (hfast : fastGet yaml path = .ok ({}, false))
    (hrej : parse yaml = none) :
    GetE parse marshal yaml path = .ok {} ∧ Result.Exists ({} : Result) = false := by
  refine ⟨?_, rfl⟩
  rw [GetE_nodot parse marshal yaml path hne hnd, hfast, hrej]

/-- Witness for C2 (amended) at document `x: [`, path `x|y`, and a parser
    rejecting everything. -/
theorem c2_amended_witness :
    (gs ("x|y")) ≠ ([] : GoStr) ∧
      GetE (fun _ => none) marshalModel (gs ("x: [")) (gs ("x|y")) = .ok {} := by
  refine ⟨by decide, ?_⟩
  exact (c2_amended_reject_gives_null (fun _ => none) marshalModel (gs ("x: ["))
    (gs ("x|y")) (by decide) (by decide) (by decide) rfl).1

/-- C3 (code bug): on the document `a:1` — a plain YAML scalar, since a
    mapping needs a space after the colon — the fast extractor answers
    `ok = true` with `Number 1`, while the tree-based traversal of the
    correctly parsed scalar yields the non-existent `Null` result; `Get`
    returns the fast (wrong) answer instead of declining. -/
theorem c3_fast_path_wrong_answer :
    fastGet (gs ("a:1")) (gs ("a")) =
        .ok ({ typ := RType.Number, Num := 1, Raw := gs ("1") }, true) ∧
      parseModel (gs ("a:1")) = some (.vstr (gs ("a:1"))) ∧
      getFromPath parseModel marshalModel (.vstr (gs ("a:1"))) (gs ("a")) (gs ("a:1")) =
        ({} : Result) ∧
      GetE parseModel marshalModel (gs ("a:1")) (gs ("a")) =
        .ok { typ := RType.Number, Num := 1, Raw := gs ("1") } := by
  exact ⟨by decide, by decide, by decide, by decide⟩

set_option maxRecDepth 10000 in
set_option maxHeartbeats 1000000 in
/-- C4 (code bug): on the README document, `Get("children|@reverse|0")` is
    documented to return the string `Jack`, but after the `@reverse` modifier
    runs, `applyModifier` is re-entered with path `0`; a pipe tail that does
    not begin with `@` makes it return `valueToResult(data)` — the original
    (unreversed) `children` value as raw YAML — instead of evaluating the
    path against the modifier's output. -/
theorem c4_pipe_path_ignores_modifier_output :
    GetE parseModel marshalModel readmeText (gs ("children|@reverse|0")) =
        .ok { typ := RType.YAML, Raw := marshalModel childrenVal } ∧
      Result.String { typ := RType.YAML, Raw := marshalModel childrenVal } ≠ gs ("Jack") := by
  exact ⟨by decide, by decide⟩

set_option maxRecDepth 10000 in
set_option maxHeartbeats 1000000 in
/-- C5 (code bug): on the README document, the nested query
    `friends.#(nets.#(=="fb"))#.first` is documented to return
    `["Dale","Roger"]`, but `getValueByKey` only splits the left key on dots
    and walks mappings — it never re-enters the traversal engine — so the key
    `nets.#(` resolves to `nil` for every friend (shown for Dale), no element
    matches, and the result is the empty sequence. -/
theorem c5_nested_query_matches_nothing :
    GetE parseModel marshalModel readmeText
        (gs ("friends.#(nets.#(==") ++ [dqChar] ++ gs ("fb") ++ [dqChar] ++ gs ("))#.first")) =
        .ok { typ := RType.YAML, Raw := marshalModel (yseq []) } ∧
      Result.Array parseModel marshalModel
        { typ := RType.YAML, Raw := marshalModel (yseq []) } = [] ∧
      evaluateQuery friendDale
        (gs ("nets.#(==") ++ [dqChar] ++ gs ("fb") ++ [dqChar] ++ [')']) = false := by
  exact ⟨by decide, by decide, by decide⟩

set_option maxRecDepth 10000 in
/-- C6 (counterexample): the document `a:\n  b: 1\n  c: 2` parses to a
    mapping with two keys at `a`, yet `Get(D, "a.#")` returns `Number 0`:
    the path has no complex features, so the fast path answers, and its
    `countArrayElements` counts `- `-led lines of the raw text — of which a
    mapping has none. -/
theorem c6_counterexample :
    parseModel c6doc =
        some (ymap [(gs ("a"), ymap [(gs ("b"), .vnum 1), (gs ("c"), .vnum 2)])]) ∧
      GetE parseModel marshalModel c6doc (gs ("a.#")) =
        .ok { typ := RType.Number, Num := 0, Raw := gs ("0") } := by
  exact ⟨by decide, by decide⟩

/-- C6 (amended): when a final `#` component is evaluated by the tree-based
    traversal engine, the result is `Number(len(elements))` on a sequence,
    `Number(len(keys))` on a mapping, and `Number 0` on a scalar.  (`Get`
    itself may answer `#`-final paths through the fast scalar extractor,
    which instead reports the number of `- `-led lines of the raw text —
    see the counterexample.) -/
theorem c6_amended_traversal_count (parse : Unmarshal) (marshal : Marshal)
    (v : YValue) (orig : GoStr) :
    traversePath parse marshal v [{ isCount := true }] orig =
      { typ := RType.Number,
        Num := (match v with
                | .vseq l => (l.toList.length : Rat)
                | .vmap m => (m.toList.length : Rat)
                | _ => 0),
        Raw := (match v with
                | .vseq l => natToStr l.toList.length
                | .vmap m => natToStr m.toList.length
                | _ => gs ("0")) } := by
  cases v <;> rfl

/-! ### C8: the glob matcher -/

theorem matchStar_eq_true_iff (f : GoStr → Bool) (s : GoStr) :
    matchStar f s = true ↔ ∃ t, t <:+ s ∧ f t = true := by
  induction s with
  | nil =>
    simp only [matchStar]
    constructor
    · intro h
      exact ⟨[], List.suffix_rfl, h⟩
    · rintro ⟨t, hsuf, hf⟩
      rw [List.suffix_nil.mp hsuf] at hf
      exact hf
  | cons c rest ih =>
    simp only [matchStar, Bool.or_eq_true, ih]
    constructor
    · rintro (h | ⟨t, hsuf, hf⟩)
      · exact ⟨c :: rest, List.suffix_rfl, h⟩
      · exact ⟨t, hsuf.trans (List.suffix_cons c rest), hf⟩
    · rintro ⟨t, hsuf, hf⟩
      rcases List.suffix_cons_iff.mp hsuf with h | h
      · subst h; exact Or.inl hf
      · exact Or.inr ⟨t, h, hf⟩

theorem globSpec_nil_inv {s : GoStr} (h : GlobSpec [] s) : s = [] := by
  cases h; rfl

theorem globSpec_cons_inv {p : Char} {ps s : GoStr} (h : GlobSpec (p :: ps) s) :
    (p = '*' ∧ ∃ s1 s2, s = s1 ++ s2 ∧ GlobSpec ps s2) ∨
      (p = '?' ∧ ∃ c s2, s = c :: s2 ∧ GlobSpec ps s2) ∨
      (p ≠ '*' ∧ p ≠ '?' ∧ ∃ s2, s = p :: s2 ∧ GlobSpec ps s2) := by
  cases h with
  | star hg => exact Or.inl ⟨rfl, _, _, rfl, hg⟩
  | one hg => exact Or.inr (Or.inl ⟨rfl, _, _, rfl, hg⟩)
  | lit h1 h2 hg => exact Or.inr (Or.inr ⟨h1, h2, _, rfl, hg⟩)

theorem deepMatch_iff_globSpec (str pat : GoStr) :
    deepMatch str pat = true ↔ GlobSpec pat str := by
  induction pat generalizing str with
  | nil =>
    constructor
    · intro h
      have hs : str = [] := by simpa [deepMatch, List.isEmpty_iff] using h
      subst hs; exact GlobSpec.nil
    · intro h
      have hs := globSpec_nil_inv h
      subst hs; rfl
  | cons p ps ih =>
    simp only [deepMatch]
    by_cases hstar : p = '*'
    · subst hstar
      rw [if_pos rfl]
      by_cases hps : ps = []
      · subst hps
        rw [if_pos rfl]
        constructor
        · intro _
          have h0 := @GlobSpec.star [] str [] GlobSpec.nil
          rwa [List.append_nil] at h0
        · intro _; rfl
      · rw [if_neg hps, matchStar_eq_true_iff]
        constructor
        · rintro ⟨t, ⟨s1, rfl⟩, hf⟩
          exact GlobSpec.star ((ih t).mp hf)
        · intro h
          rcases globSpec_cons_inv h with ⟨_, s1, s2, heq, hg⟩ | ⟨hq2, _⟩ | ⟨hne1, _⟩
          · subst heq; exact ⟨s2, ⟨s1, rfl⟩, (ih s2).mpr hg⟩
          · exact absurd hq2 (by decide)
          · exact absurd rfl hne1
    · by_cases hq : p = '?'
      · subst hq
        rw [if_neg hstar, if_pos rfl]
        cases str with
        | nil =>
          constructor
          · intro h; cases h
          · intro h
            rcases globSpec_cons_inv h with ⟨h1, _⟩ | ⟨_, c2, s2, heq, _⟩ | ⟨_, hne2, _⟩
            · exact absurd h1 (by decide)
            · cases heq
            · exact absurd rfl hne2
        | cons c s =>
          constructor
          · intro h; exact GlobSpec.one ((ih s).mp h)
          · intro h
            rcases globSpec_cons_inv h with ⟨h1, _⟩ | ⟨_, c2, s2, heq, hg⟩ | ⟨_, hne2, _⟩
            · exact absurd h1 (by decide)
            · injection heq with _ h3
              subst h3; exact (ih s).mpr hg
            · exact absurd rfl hne2
      · rw [if_neg hstar, if_neg hq]
        cases str with
        | nil =>
          constructor
          · intro h; cases h
          · intro h
            rcases globSpec_cons_inv h with ⟨h1, _⟩ | ⟨h2, _⟩ | ⟨_, _, s2, heq, _⟩
            · exact absurd h1 hstar
            · exact absurd h2 hq
            · cases heq
        | cons c s =>
          dsimp only
          by_cases hcp : c = p
          · subst hcp
            rw [if_pos rfl]
            constructor
            · intro h; exact GlobSpec.lit hstar hq ((ih s).mp h)
            · intro h
              rcases globSpec_cons_inv h with ⟨h1, _⟩ | ⟨h2, _⟩ | ⟨_, _, s2, heq, hg⟩
              · exact absurd h1 hstar
              · exact absurd h2 hq
              · injection heq with _ h3
                subst h3; exact (ih s).mpr hg
          · rw [if_neg hcp]
            constructor
            · intro h; cases h
            · intro h
              rcases globSpec_cons_inv h with ⟨h1, _⟩ | ⟨h2, _⟩ | ⟨_, _, s2, heq, _⟩
              · exact absurd h1 hstar
              · exact absurd h2 hq
              · injection heq with h3 _
                exact absurd h3 hcp

/-- C8: the glob matcher satisfies the spec's semantics — `*` matches any run
    of bytes including the empty run, `?` matches exactly one byte, every
    other pattern byte matches only an identical byte — and in particular
    `match("", "*")` is true. -/
theorem c8_glob_matcher_meets_spec :
    (∀ str pat : GoStr, matchPattern str pat = true ↔ GlobSpec pat str) ∧
      matchPattern [] ['*'] = true := by
  refine ⟨fun str pat => ?_, rfl⟩
  exact deepMatch_iff_globSpec str pat

/-! ### C7: query single/multi agreement -/

theorem traversePath_plain_cons (parse : Unmarshal) (marshal : Marshal)
    (part : PathComponent) (hp : part.hasPipe = false) (hc : part.isCount = false)
    (hq : part.isQuery = false) (data : YValue) (rest : List PathComponent) (orig : GoStr) :
    traversePath parse marshal data (part :: rest) orig =
      (match stepPlain part data with
       | none => {}
       | some d => traversePath parse marshal d rest orig) := by
  cases data with
  | vmap m =>
    rw [traversePath]
    simp only [hp, hc, hq, Bool.false_eq_true, if_false, stepPlain]
    by_cases hw : part.isWild = true
    · simp only [if_pos hw]
      generalize (m.toList.filter (fun kv => matchPattern kv.1 part.key)).map
          (fun kv => kv.2) = hits
      rcases hits with _ | ⟨x, _ | ⟨y, t⟩⟩ <;> rfl
    · simp only [if_neg hw]
  | vseq l =>
    rw [traversePath]
    simp only [hp, hc, hq, Bool.false_eq_true, if_false, stepPlain]
    by_cases hi : part.isIndex = true
    · simp only [if_pos hi]
      by_cases hr : part.index < 0 ∨ part.index ≥ (l.toList.length : Int)
      · simp only [if_pos hr]
      · simp only [if_neg hr]
        cases l.toList.get? part.index.toNat <;> rfl
    · simp only [if_neg hi]
      by_cases hk : part.key ≠ []
      · simp only [if_pos hk]
        by_cases hres : l.toList.filterMap (fun item =>
            match item with
            | .vmap m2 => m2.lookup part.key
            | _ => none) = []
        · simp only [if_pos hres]
        · simp only [if_neg hres]
      · simp only [if_neg hk]
  | vnull =>
    rw [traversePath.eq_def]
    simp only [hp, hc, hq, Bool.false_eq_true, if_false, stepPlain]
  | vbool b =>
    rw [traversePath.eq_def]
    simp only [hp, hc, hq, Bool.false_eq_true, if_false, stepPlain]
  | vnum q2 =>
    rw [traversePath.eq_def]
    simp only [hp, hc, hq, Bool.false_eq_true, if_false, stepPlain]
  | vstr st =>
    rw [traversePath.eq_def]
    simp only [hp, hc, hq, Bool.false_eq_true, if_false, stepPlain]

theorem traversePath_plain_append (parse : Unmarshal) (marshal : Marshal)
    (sparts : List PathComponent)
    (hplain : ∀ c ∈ sparts, c.hasPipe = false ∧ c.isCount = false ∧ c.isQuery = false)
    (data : YValue) (tail : List PathComponent) (orig : GoStr) :
    traversePath parse marshal data (sparts ++ tail) orig =
      (match descendPlain data sparts with
       | none => {}
       | some d => traversePath parse marshal d tail orig) := by
  induction sparts generalizing data with
  | nil => rfl
  | cons p ps ih =>
    obtain ⟨hp, hc, hq⟩ := hplain p (List.mem_cons_self p ps)
    have hplain2 : ∀ c ∈ ps, c.hasPipe = false ∧ c.isCount = false ∧ c.isQuery = false :=
      fun c hcm => hplain c (List.mem_cons_of_mem p hcm)
    rw [List.cons_append,
      traversePath_plain_cons parse marshal p hp hc hq data (ps ++ tail) orig]
    cases hsp : stepPlain p data with
    | none => simp [descendPlain, hsp]
    | some d => simp only [descendPlain, hsp, ih hplain2]

theorem traversePath_query_only (parse : Unmarshal) (marshal : Marshal)
    (d : YValue) (q : GoStr) (mlt : Bool) (orig : GoStr) :
    traversePath parse marshal d [{ isQuery := true, query := q, multi := mlt }] orig =
      valueToResult marshal
        (handleQuery d { isQuery := true, query := q, multi := mlt } []) := by
  cases mlt <;> cases d <;> rfl

theorem getFromPath_to_traverse (parse : Unmarshal) (marshal : Marshal)
    (data : YValue) (p orig : GoStr) (hne : p ≠ [])
    (ha : goHasPre p (gs ("@")) = false) (hpp : parsePath p ≠ []) :
    getFromPath parse marshal data p orig =
      traversePath parse marshal data (parsePath p) orig := by
  unfold getFromPath
  have h1 : ¬(p = [] ∨ p = gs ("@this")) := by
    rintro (h | h)
    · exact hne h
    · rw [h] at ha; exact absurd ha (by decide)
  rw [if_neg h1]
  simp only [ha, Bool.false_eq_true, if_false]
  rw [if_neg hpp]

theorem array_of_marshalled_list (parse : Unmarshal) (marshal : Marshal)
    (MS : List YValue)
    (hrt : parse (marshal (.vseq (YList.ofList MS))) = some (.vseq (YList.ofList MS)))
    (hbr : ∃ tl, marshal (.vseq (YList.ofList MS)) = '[' :: tl) :
    Result.Array parse marshal { typ := RType.YAML, Raw := marshal (.vseq (YList.ofList MS)) } =
      MS.map (valueToResult marshal) := by
  obtain ⟨tl, htl⟩ := hbr
  have hia : Result.IsArray { typ := RType.YAML, Raw := marshal (.vseq (YList.ofList MS)) } = true := by
    simp [Result.IsArray, htl]
  unfold Result.Array
  rw [if_neg (by simp), if_neg (by simp [hia])]
  unfold Result.arrayOrMap
  rw [hrt]
  simp [YList.toList_ofList]

set_option maxHeartbeats 1000000 in
/-- C7: for every document `D` and every pair of paths that tokenize to the
    same plain prefix followed by the same query — once with the multi flag
    (`arr.#(q)#`), once without (`arr.#(q)`) — assuming the bridge serializes
    the match list to a `[`-led text that re-parses to itself, the first
    element of the array returned by the multi form equals the result of the
    single form, and when no element matches, the single form is
    non-existent. -/
theorem c7_query_first_multi (parse : Unmarshal) (marshal : Marshal)
    (D p1 p2 : GoStr) (sparts : List PathComponent) (q : GoStr)
    (hplain : ∀ c ∈ sparts, c.hasPipe = false ∧ c.isCount = false ∧ c.isQuery = false)
    (h1 : parsePath p1 = sparts ++ [{ isQuery := true, query := q, multi := true }])
    (h2 : parsePath p2 = sparts ++ [{ isQuery := true, query := q, multi := false }])
    (hcf1 : hasComplexFeatures p1 = true) (hcf2 : hasComplexFeatures p2 = true)
    (hd1 : goHasPre p1 (gs (".")) = false) (hd2 : goHasPre p2 (gs (".")) = false)
    (ha1 : goHasPre p1 (gs ("@")) = false) (ha2 : goHasPre p2 (gs ("@")) = false)
    (hrt : parse (marshal (.vseq (YList.ofList (c7Matches parse D sparts q)))) =
      some (.vseq (YList.ofList (c7Matches parse D sparts q))))
    (hbr : ∃ tl, marshal (.vseq (YList.ofList (c7Matches parse D sparts q))) = '[' :: tl) :
    ∃ rM rS, GetE parse marshal D p1 = .ok rM ∧ GetE parse marshal D p2 = .ok rS ∧
      ((Result.Array parse marshal rM = [] ∧ rS.Exists = false) ∨
        ∃ tl2, Result.Array parse marshal rM = rS :: tl2) := by
  have hne1 : p1 ≠ [] := by
    intro h
    rw [h] at h1
    exact List.append_ne_nil_of_right_ne_nil sparts (by simp) h1.symm
  have hne2 : p2 ≠ [] := by
    intro h
    rw [h] at h2
    exact List.append_ne_nil_of_right_ne_nil sparts (by simp) h2.symm
  rw [GetE_eq_slow parse marshal D p1 hne1 hd1 hcf1,
    GetE_eq_slow parse marshal D p2 hne2 hd2 hcf2]
  cases hpD : parse D with
  | none => exact ⟨{}, {}, rfl, rfl, Or.inl ⟨rfl, rfl⟩⟩
  | some data =>
    dsimp only
    rw [getFromPath_to_traverse parse marshal data p1 D hne1 ha1 (by rw [h1]; simp),
      getFromPath_to_traverse parse marshal data p2 D hne2 ha2 (by rw [h2]; simp),
      h1, h2,
      traversePath_plain_append parse marshal sparts hplain data _ D,
      traversePath_plain_append parse marshal sparts hplain data _ D]
    cases hdp : descendPlain data sparts with
    | none => exact ⟨{}, {}, rfl, rfl, Or.inl ⟨rfl, rfl⟩⟩
    | some d =>
      dsimp only
      rw [traversePath_query_only parse marshal d q true D,
        traversePath_query_only parse marshal d q false D]
      cases d with
      | vseq arr =>
        have hMS : c7Matches parse D sparts q =
            arr.toList.filter (fun item => evaluateQuery item q) := by
          simp [c7Matches, hpD, hdp]
        rw [hMS] at hrt hbr
        simp only [handleQuery]
        cases hms : arr.toList.filter (fun item => evaluateQuery item q) with
        | nil =>
          rw [hms] at hrt hbr
          refine ⟨_, _, rfl, rfl, Or.inl ⟨?_, rfl⟩⟩
          simp only [valueToResult]
          exact (array_of_marshalled_list parse marshal [] hrt hbr).trans rfl
        | cons m0 ms =>
          rw [hms] at hrt hbr
          refine ⟨_, _, rfl, rfl, Or.inr ⟨ms.map (valueToResult marshal), ?_⟩⟩
          simp only [valueToResult]
          exact (array_of_marshalled_list parse marshal (m0 :: ms) hrt hbr).trans rfl
      | vnull => exact ⟨_, _, rfl, rfl, Or.inl ⟨rfl, rfl⟩⟩
      | vbool b => exact ⟨_, _, rfl, rfl, Or.inl ⟨rfl, rfl⟩⟩
      | vnum q2 => exact ⟨_, _, rfl, rfl, Or.inl ⟨rfl, rfl⟩⟩
      | vstr st => exact ⟨_, _, rfl, rfl, Or.inl ⟨rfl, rfl⟩⟩
      | vmap m => exact ⟨_, _, rfl, rfl, Or.inl ⟨rfl, rfl⟩⟩

set_option maxRecDepth 10000 in
/-- Witness for C7 on the document `fr:\n  - a\n  - b` with query `=="b"`:
    paths `fr.#(=="b")#` and `fr.#(=="b")`. -/
theorem c7_query_first_multi_witness :
    (parsePath (gs ("fr.#(==") ++ [dqChar] ++ gs ("b") ++ [dqChar] ++ gs (")#")) =
        [{ key := gs ("fr") }] ++
          [{ isQuery := true, query := gs ("==") ++ [dqChar] ++ gs ("b") ++ [dqChar],
             multi := true }]) ∧
      (∃ rM rS,
        GetE parseModel marshalModel c7doc
            (gs ("fr.#(==") ++ [dqChar] ++ gs ("b") ++ [dqChar] ++ gs (")#")) = .ok rM ∧
          GetE parseModel marshalModel c7doc
            (gs ("fr.#(==") ++ [dqChar] ++ gs ("b") ++ [dqChar] ++ gs (")")) = .ok rS ∧
          ((Result.Array parseModel marshalModel rM = [] ∧ rS.Exists = false) ∨
            ∃ tl2, Result.Array parseModel marshalModel rM = rS :: tl2)) :=
  ⟨by decide,
    c7_query_first_multi parseModel marshalModel c7doc
      (gs ("fr.#(==") ++ [dqChar] ++ gs ("b") ++ [dqChar] ++ gs (")#"))
      (gs ("fr.#(==") ++ [dqChar] ++ gs ("b") ++ [dqChar] ++ gs (")"))
      [{ key := gs ("fr") }]
      (gs ("==") ++ [dqChar] ++ gs ("b") ++ [dqChar])
      (by decide) (by decide) (by decide) (by decide) (by decide) (by decide) (by decide)
      (by decide) (by decide) (by decide)
      ⟨[dqChar, 'b', dqChar, ']'], by decide⟩⟩

/-- C10: when a wildcard key component matches zero keys of the current
    mapping and is the final path component, `Get` returns an existent
    `YAML` (Raw) result carrying the serialized empty sequence — not a
    non-existent `Null`. -/
theorem c10_wildcard_no_match_existent (parse : Unmarshal) (marshal : Marshal)
    (yaml path pat : GoStr) (m : YMap)
    (hpp : parsePath path = [{ key := pat, isWild := true }])
    (hcf : hasComplexFeatures path = true)
    (hnd : goHasPre path (gs (".")) = false)
    (hna : goHasPre path (gs ("@")) = false)
    (hparse : parse yaml = some (.vmap m))
    (hnomatch : ∀ kv ∈ m.toList, matchPattern kv.1 pat = false) :
    GetE parse marshal yaml path = .ok { typ := RType.YAML, Raw := marshal (.vseq .nil) } ∧
      Result.Exists { typ := RType.YAML, Raw := marshal (.vseq .nil) } = true := by
  have hne : path ≠ [] := by
    intro h
    rw [h] at hpp
    simp [parsePath, parsePathAux] at hpp
  refine ⟨?_, rfl⟩
  rw [GetE_eq_slow parse marshal yaml path hne hnd hcf, hparse]
  dsimp only
  rw [getFromPath_to_traverse parse marshal _ path yaml hne hna (by rw [hpp]; simp), hpp]
  rw [traversePath_plain_cons parse marshal _ rfl rfl rfl _ [] yaml]
  have hfil : m.toList.filter (fun kv => matchPattern kv.1 pat) = [] :=
    List.filter_eq_nil_iff.mpr (fun kv hkv => by simp [hnomatch kv hkv])
  simp only [stepPlain, hfil]
  rfl

/-- Witness for C10 at document `a: 1` and wildcard path `z*`. -/
theorem c10_wildcard_no_match_existent_witness :
    (∀ kv ∈ (YMap.cons (gs ("a")) (YValue.vnum 1) YMap.nil).toList,
        matchPattern kv.1 (gs ("z*")) = false) ∧
      GetE parseModel marshalModel (gs ("a: 1")) (gs ("z*")) =
        .ok { typ := RType.YAML, Raw := marshalModel (.vseq .nil) } :=
  ⟨by decide,
    (c10_wildcard_no_match_existent parseModel marshalModel (gs ("a: 1")) (gs ("z*"))
      (gs ("z*")) (YMap.cons (gs ("a")) (YValue.vnum 1) YMap.nil)
      (by decide) (by decide) (by decide) (by decide) (by decide) (by decide)).1⟩
